import Mathlib

/-!
Verification of the ai-collab-mcp task/mission/plan/loop core.

The definitions below are a shallow embedding of the JavaScript sources:
`src/taskQueue.js` (task store), `missionManager.js`, `projectPlanManager.js`,
and the `LoopStateManager` (whose full source appears in
`docs/autonomous-workflow.md`).  JavaScript objects keyed by id are modelled
as association lists `List (String × α)` in insertion order, which is what
`for ... in` / `Object.keys` iterate over; assigning `obj[k] = v` replaces the
value in place when the key exists and appends otherwise, which `setRec`
mirrors.  Timestamps (`new Date().toISOString()` / `Date.now()`) are passed in
as explicit `Nat` parameters.
-/

set_option linter.unusedVariables false
set_option linter.unnecessarySeqFocus false

namespace AiCollab

universe u

/-- First-match lookup in an id-keyed record object (`obj[key]`). -/
def findRec {α : Type u} : List (String × α) → String → Option α
  | [], _ => none
  | (k, v) :: rest, key => if k = key then some v else findRec rest key

/-- Assignment `obj[key] = v`: replaces in place when the key exists, appends
otherwise (JavaScript property-order semantics). -/
def setRec {α : Type u} : List (String × α) → String → α → List (String × α)
  | [], key, v => [(key, v)]
  | (k, w) :: rest, key, v =>
    if k = key then (k, v) :: rest else (k, w) :: setRec rest key v

/-- `Object.keys obj`, in insertion order. -/
def recKeys {α : Type u} (l : List (String × α)) : List String := l.map Prod.fst

theorem findRec_setRec_self {α : Type u} (l : List (String × α)) (key : String) (v : α) :
    findRec (setRec l key v) key = some v := by
  induction l with
  | nil => simp [setRec, findRec]
  | cons p rest ih =>
    obtain ⟨k, w⟩ := p
    by_cases h : k = key <;> simp [setRec, findRec, h, ih]

theorem findRec_setRec_ne {α : Type u} (l : List (String × α)) (key key' : String) (v : α)
    (h : key' ≠ key) : findRec (setRec l key v) key' = findRec l key' := by
  have hne : key ≠ key' := fun he => h he.symm
  induction l with
  | nil => simp [setRec, findRec, hne]
  | cons p rest ih =>
    obtain ⟨k, w⟩ := p
    by_cases hk : k = key
    · subst hk
      simp [setRec, findRec, hne]
    · by_cases hk' : k = key'
      · subst hk'
        simp [setRec, findRec, hk]
      · simp [setRec, findRec, hk, hk', ih]

theorem setRec_findRec_self {α : Type u} {l : List (String × α)} {key : String} {v : α}
    (h : findRec l key = some v) : setRec l key v = l := by
  induction l with
  | nil => simp [findRec] at h
  | cons p rest ih =>
    obtain ⟨k, w⟩ := p
    by_cases hk : k = key
    · simp [findRec, hk] at h
      simp [setRec, hk, h]
    · simp [findRec, hk] at h
      simp [setRec, hk, ih h]

theorem findRec_eq_none {α : Type u} {l : List (String × α)} {key : String} :
    key ∉ recKeys l ↔ findRec l key = none := by
  induction l with
  | nil => simp [recKeys, findRec]
  | cons p rest ih =>
    obtain ⟨k, w⟩ := p
    by_cases hk : k = key
    · subst hk
      simp [recKeys, findRec]
    · have hk2 : key ≠ k := fun he => hk he.symm
      simp [recKeys, findRec, hk, hk2, ← ih]

theorem recKeys_setRec {α : Type u} {l : List (String × α)} {key : String} (v : α)
    (h : findRec l key ≠ none) : recKeys (setRec l key v) = recKeys l := by
  induction l with
  | nil => simp [findRec] at h
  | cons p rest ih =>
    obtain ⟨k, w⟩ := p
    by_cases hk : k = key
    · simp [setRec, recKeys, hk]
    · simp only [findRec, if_neg hk] at h
      simp only [setRec, if_neg hk, recKeys, List.map_cons, List.cons.injEq, true_and]
      exact ih h

/-! ## Task store (`src/taskQueue.js`)

Task status strings used by the source: `pending`, `available`, `blocked`,
`in_progress`, `in_review`, `completed`, `needs_revision`. -/

inductive Status where
  | pending
  | available
  | blocked
  | in_progress
  | in_review
  | completed
  | needs_revision
  deriving DecidableEq

/-- Priority strings `high`/`medium`/`low`. -/
inductive Priority where
  | high
  | medium
  | low
  deriving DecidableEq

/-- `priorityOrder = { high: 0, medium: 1, low: 2 }` (taskQueue.js:220,297). -/
def priorityOrder : Priority → Nat
  | Priority.high => 0
  | Priority.medium => 1
  | Priority.low => 2

/-- A work submission (`submit_work` handler builds it); only the fields the
claims mention are modelled, the rest is opaque payload. -/
structure Submission where
  taskId : String
  summary : String
  deriving DecidableEq

/-- A review verdict string: the source only ever tests `=== 'approved'` and
the handler documents the field as `'approved' or 'needs_revision'`. -/
inductive Verdict where
  | approved
  | needs_revision
  deriving DecidableEq

/-- A review (`review_work` handler builds it). -/
structure Review where
  taskId : String
  status : Verdict
  feedback : String
  deriving DecidableEq

/-- A task record as stored in `tasks.json` (taskQueue.js:45-54; the server
handler adds `createdAt` and `status: 'pending'`).  The `questions` sub-list
and free-text fields not touched by any claim are omitted. -/
structure Task where
  title : String
  status : Status
  priority : Priority
  dependsOn : List String
  blockedBy : List String
  createdAt : Nat
  completedAt : Option Nat
  submissions : List Submission
  reviews : List Review
  deriving DecidableEq

abbrev Store := List (String × Task)

/-- One dependency test of `updateTaskAvailability` (taskQueue.js:147-150):
a dependency is unmet when the referenced task is missing or not completed. -/
def unmetDep (tasks : Store) (depId : String) : Bool :=
  match findRec tasks depId with
  | none => true
  | some depTask => decide (depTask.status ≠ Status.completed)

/-- The loop body of `updateTaskAvailability` (taskQueue.js:139-165) for a
single task id, acting on the current store. -/
def updateOne (tasks : Store) (taskId : String) : Store :=
  match findRec tasks taskId with
  | none => tasks
  | some task =>
    if task.status = Status.completed ∨ task.status = Status.in_review then tasks
    else
      let hasUnmetDependencies := task.dependsOn.any (unmetDep tasks)
      let isBlocked := decide (task.blockedBy.length > 0)
      if hasUnmetDependencies || isBlocked then
        setRec tasks taskId { task with status := Status.blocked }
      else if task.status = Status.blocked then
        setRec tasks taskId { task with status := Status.available }
      else if task.status = Status.pending then
        setRec tasks taskId
          { task with
              status := if task.dependsOn.length = 0 then Status.available else Status.blocked }
      else tasks

/-- `updateTaskAvailability(tasks, taskIdToUpdate = null)` (taskQueue.js:135-166):
the key list is captured before the loop (`Object.keys`), and the loop body
runs on the store mutated so far. -/
def updateTaskAvailability (tasks : Store) (taskIdToUpdate : Option String) : Store :=
  match taskIdToUpdate with
  | some taskId => updateOne tasks taskId
  | none => (recKeys tasks).foldl updateOne tasks

/-- The status `updateOne` leaves a task in, as a function of the store the
task is examined against (mirrors the branch structure of taskQueue.js:144-164). -/
def newStatus (tasks : Store) (task : Task) : Status :=
  if task.status = Status.completed ∨ task.status = Status.in_review then task.status
  else if task.dependsOn.any (unmetDep tasks) || decide (task.blockedBy.length > 0) then
    Status.blocked
  else if task.status = Status.blocked then Status.available
  else if task.status = Status.pending then
    (if task.dependsOn.length = 0 then Status.available else Status.blocked)
  else task.status

/-- The record rewrite `updateOne` performs: only `status` changes. -/
def updTask (tasks : Store) (task : Task) : Task :=
  { task with status := newStatus tasks task }

theorem updateOne_eq (s : Store) (id : String) :
    updateOne s id = match findRec s id with
      | none => s
      | some t => setRec s id (updTask s t) := by
  cases h : findRec s id with
  | none => simp [updateOne, h]
  | some t =>
    by_cases h1 : t.status = Status.completed ∨ t.status = Status.in_review
    · have heta : updTask s t = t := by
        simp [updTask, newStatus, h1]
      simp only [updateOne, h, if_pos h1, heta]
      exact (setRec_findRec_self h).symm
    · by_cases h2 : (t.dependsOn.any (unmetDep s) || decide (t.blockedBy.length > 0)) = true
      · simp [updateOne, h, h1, h2, updTask, newStatus]
      · by_cases h3 : t.status = Status.blocked
        · simp [updateOne, h, h1, h2, h3, updTask, newStatus]
        · by_cases h4 : t.status = Status.pending
          · simp [updateOne, h, h1, h2, h3, h4, updTask, newStatus]
          · have heta : updTask s t = t := by
              simp [updTask, newStatus, h1, h2, h3, h4]
            simp only [updateOne, h, if_neg h1, heta]
            simp only [h2, Bool.false_eq_true, if_false, if_neg h3, if_neg h4]
            exact (setRec_findRec_self h).symm

/-- What the dependency test of the availability pass can observe about an id:
whether a record exists and whether its status is `completed`. -/
def depView (s : Store) (id : String) : Option Bool :=
  (findRec s id).map (fun t => decide (t.status = Status.completed))

theorem unmetDep_eq_depView (s : Store) (id : String) :
    unmetDep s id = !((depView s id).getD false) := by
  cases h : findRec s id with
  | none => simp [unmetDep, depView, h]
  | some t => simp [unmetDep, depView, h, decide_not]

theorem unmetDep_congr {s s0 : Store} (h : ∀ i, depView s i = depView s0 i) :
    unmetDep s = unmetDep s0 := by
  funext i
  rw [unmetDep_eq_depView, unmetDep_eq_depView, h i]

theorem newStatus_congr {s s0 : Store} (h : ∀ i, depView s i = depView s0 i) (t : Task) :
    newStatus s t = newStatus s0 t := by
  simp only [newStatus, unmetDep_congr h]

theorem updTask_congr {s s0 : Store} (h : ∀ i, depView s i = depView s0 i) (t : Task) :
    updTask s t = updTask s0 t := by
  simp only [updTask, newStatus_congr h]

/-- The availability pass never creates or destroys `completed` statuses. -/
theorem newStatus_completed_iff (s : Store) (t : Task) :
    newStatus s t = Status.completed ↔ t.status = Status.completed := by
  unfold newStatus
  by_cases h1 : t.status = Status.completed ∨ t.status = Status.in_review
  · simp [h1]
  · simp only [if_neg h1]
    push_neg at h1
    split
    · simp [h1.1]
    · split
      · simp [h1.1]
      · split
        · split <;> simp [h1.1]
        · simp

/-- Core lemma: running the availability loop body over a duplicate-free list
of ids, every id ends up with the status `newStatus` assigns it with respect
to the store at the start of the pass; records are otherwise unchanged. -/
theorem foldl_updateOne_view (s0 : Store) :
    ∀ (L : List String) (s : Store), L.Nodup →
      (∀ i, depView s i = depView s0 i) →
      (∀ i, i ∈ L → findRec s i = findRec s0 i) →
      (∀ i, i ∉ L → findRec s i = (findRec s0 i).map (updTask s0)) →
      ∀ i, findRec (L.foldl updateOne s) i = (findRec s0 i).map (updTask s0) := by
  intro L
  induction L with
  | nil =>
    intro s _ _ _ h4 i
    simpa using h4 i (by simp)
  | cons id L ih =>
    intro s hnd h1 h2 h3 i
    rw [List.foldl_cons]
    obtain ⟨hidL, hndL⟩ := List.nodup_cons.mp hnd
    have hid0 : findRec s id = findRec s0 id := h2 id (by simp)
    cases hfind : findRec s id with
    | none =>
      have hstep : updateOne s id = s := by simp [updateOne, hfind]
      rw [hstep]
      refine ih s hndL h1 (fun j hj => h2 j (by simp [hj])) (fun j hj => ?_) i
      by_cases hje : j = id
      · subst hje
        rw [hfind, ← hid0, hfind]
        rfl
      · exact h3 j (by simp [hje, hj])
    | some t =>
      have ht0 : findRec s0 id = some t := by rw [← hid0, hfind]
      have hstep : updateOne s id = setRec s id (updTask s0 t) := by
        rw [updateOne_eq, hfind]
        show setRec s id (updTask s t) = setRec s id (updTask s0 t)
        rw [updTask_congr h1]
      rw [hstep]
      have hself : findRec (setRec s id (updTask s0 t)) id = some (updTask s0 t) :=
        findRec_setRec_self s id (updTask s0 t)
      refine ih (setRec s id (updTask s0 t)) hndL ?_ ?_ ?_ i
      · intro j
        by_cases hje : j = id
        · subst hje
          show (findRec (setRec s j (updTask s0 t)) j).map
              (fun u => decide (u.status = Status.completed)) =
            (findRec s0 j).map (fun u => decide (u.status = Status.completed))
          rw [hself, ht0]
          show some (decide ((updTask s0 t).status = Status.completed)) =
            some (decide (t.status = Status.completed))
          congr 1
          rw [decide_eq_decide]
          exact newStatus_completed_iff s0 t
        · show (findRec (setRec s id (updTask s0 t)) j).map _ = _
          rw [findRec_setRec_ne s id j _ hje]
          exact h1 j
      · intro j hj
        have hje : j ≠ id := fun he => hidL (he ▸ hj)
        rw [findRec_setRec_ne s id j _ hje]
        exact h2 j (by simp [hj])
      · intro j hj
        by_cases hje : j = id
        · subst hje
          rw [hself, ht0]
          rfl
        · rw [findRec_setRec_ne s id j _ hje]
          exact h3 j (by simp [hje, hj])

/-- The full availability pass (`updateTaskAvailability(tasks)` with no scope):
per-record characterization. -/
theorem updateAll_findRec (s : Store) (hnd : (recKeys s).Nodup) (i : String) :
    findRec (updateTaskAvailability s none) i = (findRec s i).map (updTask s) := by
  unfold updateTaskAvailability
  refine foldl_updateOne_view s (recKeys s) s hnd (fun _ => rfl) (fun _ _ => rfl)
    (fun j hj => ?_) i
  rw [findRec_eq_none.mp hj]
  rfl

/-- The single-id availability pass (`updateTaskAvailability(tasks, taskId)`). -/
theorem updateSingle_findRec (s : Store) (id : String) :
    findRec (updateTaskAvailability s (some id)) id = (findRec s id).map (updTask s) := by
  show findRec (updateOne s id) id = _
  rw [updateOne_eq]
  cases h : findRec s id with
  | none =>
    rw [h]
    rfl
  | some t =>
    show findRec (setRec s id (updTask s t)) id = _
    rw [findRec_setRec_self]
    rfl

/-- The single-id availability pass leaves every other record unchanged. -/
theorem updateSingle_findRec_ne (s : Store) (id i : String) (h : i ≠ id) :
    findRec (updateTaskAvailability s (some id)) i = findRec s i := by
  show findRec (updateOne s id) i = _
  rw [updateOne_eq]
  cases hf : findRec s id with
  | none => rfl
  | some t => exact findRec_setRec_ne s id i _ h

/-! ## Task store operations -/

/-- The errors `taskQueue.js` actually throws: `Task <id> not found`. -/
inductive TQErr where
  | notFound (taskId : String)
  deriving DecidableEq

/-- A directive as assembled by the `send_directive` handler (server index,
also taskQueue.js:42-54): the handler always sets `status: 'pending'` and a
`createdAt` stamp, but the field travels inside the spread object, so the
store layer takes it from the directive. -/
structure Directive where
  taskId : String
  title : String
  status : Status
  createdAt : Nat
  priority : Option Priority
  dependsOn : Option (List String)
  blockedBy : Option (List String)
  deriving DecidableEq

/-- The record `addDirective` writes (taskQueue.js:45-54): spread of the
directive plus empty `submissions`/`reviews` lists and `||`-defaults. -/
def directiveTask (d : Directive) : Task :=
  { title := d.title
    status := d.status
    priority := d.priority.getD Priority.medium
    dependsOn := d.dependsOn.getD []
    blockedBy := d.blockedBy.getD []
    createdAt := d.createdAt
    completedAt := none
    submissions := []
    reviews := [] }

/-- `addDirective(directive)` (taskQueue.js:42-61): unconditional assignment
`tasks[directive.taskId] = {...}` — there is no duplicate-id check — followed
by the availability recompute restricted to this id, then save. -/
def addDirective (tasks : Store) (d : Directive) : String × Store :=
  let tasks := setRec tasks d.taskId (directiveTask d)
  let tasks := updateTaskAvailability tasks (some d.taskId)
  (d.taskId, tasks)

/-- `addSubmission(submission)` (taskQueue.js:63-75): throw if the task id is
unknown; otherwise push the submission and set status `in_review`,
unconditionally on the prior status. -/
def addSubmission (tasks : Store) (submission : Submission) : Except TQErr Store :=
  match findRec tasks submission.taskId with
  | none => Except.error (TQErr.notFound submission.taskId)
  | some task =>
    Except.ok (setRec tasks submission.taskId
      { task with
          submissions := task.submissions ++ [submission]
          status := Status.in_review })

/-- The record an approved review leaves behind (taskQueue.js:85-90): review
appended, status `completed`, `completedAt` stamped. -/
def approvedTask (t : Task) (r : Review) (now : Nat) : Task :=
  { t with reviews := t.reviews ++ [r], status := Status.completed, completedAt := some now }

/-- The record a needs_revision review leaves behind (taskQueue.js:85-86). -/
def revisedTask (t : Task) (r : Review) : Task :=
  { t with reviews := t.reviews ++ [r], status := Status.needs_revision }

/-- `addReview(review)` (taskQueue.js:77-95): throw if unknown; push the
review; set status from the verdict; if approved, set `completedAt` and run
the availability recompute over all tasks before saving. -/
def addReview (tasks : Store) (review : Review) (now : Nat) : Except TQErr Store :=
  match findRec tasks review.taskId with
  | none => Except.error (TQErr.notFound review.taskId)
  | some task =>
    let task :=
      { task with
          reviews := task.reviews ++ [review]
          status := if review.status = Verdict.approved then Status.completed
                    else Status.needs_revision }
    if review.status = Verdict.approved then
      let task := { task with completedAt := some now }
      let tasks := setRec tasks review.taskId task
      Except.ok (updateTaskAvailability tasks none)
    else
      Except.ok (setRec tasks review.taskId task)

/-- Store effect of `getPendingTasks(role)` (taskQueue.js:168-173): the
function first runs `updateTaskAvailability` over all tasks and persists the
result with `saveTasks`; the pending list built afterwards (lines 175-228)
only reads the store, so only the persisted store is modelled here. -/
def getPendingTasksStore (tasks : Store) : Store :=
  updateTaskAvailability tasks none

/-- Is a task selectable by the best-priority scan (taskQueue.js:303)? -/
def workable (t : Task) : Bool :=
  decide (t.status = Status.available ∨ t.status = Status.needs_revision)

/-- The first `in_progress` task in iteration order (taskQueue.js:288-293). -/
def findInProgressTask : Store → Option (String × Task)
  | [] => none
  | (k, t) :: rest =>
    if t.status = Status.in_progress then some (k, t) else findInProgressTask rest

/-- The best-priority scan (taskQueue.js:296-318): keeps the current best and
replaces it only on a strictly smaller `priorityOrder` rank. -/
def pickBest : Option (String × Task) → Store → Option (String × Task)
  | best, [] => best
  | best, (k, t) :: rest =>
    if workable t then
      match best with
      | none => pickBest (some (k, t)) rest
      | some b =>
        if priorityOrder t.priority < priorityOrder b.2.priority then
          pickBest (some (k, t)) rest
        else
          pickBest best rest
    else
      pickBest best rest

/-- `getNextWorkableTask()` (taskQueue.js:280-321): recompute availability
over all tasks and persist, then return the first `in_progress` task if any,
else the best-priority workable task.  The returned pair is (selection,
persisted store). -/
def getNextWorkableTask (tasks : Store) : Option (String × Task) × Store :=
  let tasks := updateTaskAvailability tasks none
  match findInProgressTask tasks with
  | some e => (some e, tasks)
  | none => (pickBest none tasks, tasks)

/-- Reformulation of the running-best recursion of `pickBest` once a best
exists, convenient for induction. -/
def firstMinFrom (e : String × Task) : Store → String × Task
  | [] => e
  | (k, t) :: rest =>
    if workable t ∧ priorityOrder t.priority < priorityOrder e.2.priority then
      firstMinFrom (k, t) rest
    else
      firstMinFrom e rest

theorem pickBest_some_eq (l : Store) (e : String × Task) :
    pickBest (some e) l = some (firstMinFrom e l) := by
  induction l generalizing e with
  | nil => rfl
  | cons p rest ih =>
    obtain ⟨k, t⟩ := p
    by_cases hw : workable t
    · by_cases hr : priorityOrder t.priority < priorityOrder e.2.priority
      · simp [pickBest, firstMinFrom, hw, hr, ih]
      · simp [pickBest, firstMinFrom, hw, hr, ih]
    · simp [pickBest, firstMinFrom, hw, ih]

theorem firstMinFrom_split (l : Store) (e : String × Task) :
    firstMinFrom e l = e ∨
      ∃ l1 r l2, l = l1 ++ r :: l2 ∧ firstMinFrom e l = r ∧ workable r.2 ∧
        priorityOrder r.2.priority < priorityOrder e.2.priority ∧
        ∀ p ∈ l1, workable p.2 →
          priorityOrder r.2.priority < priorityOrder p.2.priority := by
  induction l generalizing e with
  | nil => exact Or.inl rfl
  | cons q rest ih =>
    obtain ⟨k, t⟩ := q
    by_cases hc : workable t ∧ priorityOrder t.priority < priorityOrder e.2.priority
    · have hstep : firstMinFrom e ((k, t) :: rest) = firstMinFrom (k, t) rest := by
        simp [firstMinFrom, hc]
      rcases ih (k, t) with h | ⟨l1, r, l2, heq, hres, hw, hlt, hstrict⟩
      · refine Or.inr ⟨[], (k, t), rest, by simp, by rw [hstep, h], hc.1, hc.2, ?_⟩
        intro p hp
        simp at hp
      · refine Or.inr ⟨(k, t) :: l1, r, l2, by simp [heq], by rw [hstep, hres],
          hw, lt_trans hlt hc.2, ?_⟩
        intro p hp hpw
        rcases List.mem_cons.mp hp with hp | hp
        · subst hp
          exact hlt
        · exact hstrict p hp hpw
    · have hstep : firstMinFrom e ((k, t) :: rest) = firstMinFrom e rest := by
        simp [firstMinFrom, hc]
      rcases ih e with h | ⟨l1, r, l2, heq, hres, hw, hlt, hstrict⟩
      · exact Or.inl (by rw [hstep, h])
      · refine Or.inr ⟨(k, t) :: l1, r, l2, by simp [heq], by rw [hstep, hres],
          hw, hlt, ?_⟩
        intro p hp hpw
        rcases List.mem_cons.mp hp with hp | hp
        · subst hp
          have hte : ¬ priorityOrder t.priority < priorityOrder e.2.priority :=
            fun hlt2 => hc ⟨hpw, hlt2⟩
          exact lt_of_lt_of_le hlt (le_of_not_lt hte)
        · exact hstrict p hp hpw

theorem firstMinFrom_min (l : Store) (e : String × Task) :
    priorityOrder (firstMinFrom e l).2.priority ≤ priorityOrder e.2.priority ∧
      ∀ p ∈ l, workable p.2 →
        priorityOrder (firstMinFrom e l).2.priority ≤ priorityOrder p.2.priority := by
  induction l generalizing e with
  | nil => exact ⟨le_refl _, fun p hp => by simp at hp⟩
  | cons q rest ih =>
    obtain ⟨k, t⟩ := q
    by_cases hc : workable t ∧ priorityOrder t.priority < priorityOrder e.2.priority
    · have hstep : firstMinFrom e ((k, t) :: rest) = firstMinFrom (k, t) rest := by
        simp [firstMinFrom, hc]
      rw [hstep]
      obtain ⟨h1, h2⟩ := ih (k, t)
      refine ⟨le_of_lt (lt_of_le_of_lt h1 hc.2), ?_⟩
      intro p hp hpw
      rcases List.mem_cons.mp hp with hp | hp
      · subst hp
        exact h1
      · exact h2 p hp hpw
    · have hstep : firstMinFrom e ((k, t) :: rest) = firstMinFrom e rest := by
        simp [firstMinFrom, hc]
      rw [hstep]
      obtain ⟨h1, h2⟩ := ih e
      refine ⟨h1, ?_⟩
      intro p hp hpw
      rcases List.mem_cons.mp hp with hp | hp
      · subst hp
        have hte : ¬ priorityOrder t.priority < priorityOrder e.2.priority :=
          fun hlt2 => hc ⟨hpw, hlt2⟩
        exact le_trans h1 (le_of_not_lt hte)
      · exact h2 p hp hpw

theorem pickBest_none_spec (l : Store) :
    (pickBest none l = none → ∀ p ∈ l, workable p.2 = false) ∧
      (∀ r, pickBest none l = some r →
        ∃ l1 l2, l = l1 ++ r :: l2 ∧ workable r.2 ∧
          (∀ p ∈ l1, workable p.2 →
            priorityOrder r.2.priority < priorityOrder p.2.priority) ∧
          (∀ p ∈ l, workable p.2 →
            priorityOrder r.2.priority ≤ priorityOrder p.2.priority)) := by
  induction l with
  | nil =>
    constructor
    · intro _ p hp
      simp at hp
    · intro r hr
      simp [pickBest] at hr
  | cons q rest ih =>
    obtain ⟨k, t⟩ := q
    by_cases hw : workable t
    · have hstep : pickBest none ((k, t) :: rest) = some (firstMinFrom (k, t) rest) := by
        rw [show pickBest none ((k, t) :: rest) = pickBest (some (k, t)) rest by
          simp [pickBest, hw]]
        exact pickBest_some_eq rest (k, t)
      constructor
      · intro h
        rw [hstep] at h
        exact absurd h (by simp)
      · intro r hr
        rw [hstep] at hr
        have hr' : firstMinFrom (k, t) rest = r := by
          injection hr
        obtain ⟨hmin1, hmin2⟩ := firstMinFrom_min rest (k, t)
        rw [hr'] at hmin1 hmin2
        rcases firstMinFrom_split rest (k, t) with h | ⟨l1, r', l2, heq, hres, hw', hlt, hstrict⟩
        · rw [h] at hr'
          subst hr'
          refine ⟨[], rest, by simp, hw, ?_, ?_⟩
          · intro p hp
            simp at hp
          · intro p hp hpw
            rcases List.mem_cons.mp hp with hp | hp
            · subst hp
              exact le_refl _
            · exact hmin2 p hp hpw
        · rw [hres] at hr'
          subst hr'
          refine ⟨(k, t) :: l1, l2, by simp [heq], hw', ?_, ?_⟩
          · intro p hp hpw
            rcases List.mem_cons.mp hp with hp | hp
            · subst hp
              exact hlt
            · exact hstrict p hp hpw
          · intro p hp hpw
            rcases List.mem_cons.mp hp with hp | hp
            · subst hp
              exact le_of_lt hlt
            · exact hmin2 p hp hpw
    · have hstep : pickBest none ((k, t) :: rest) = pickBest none rest := by
        simp [pickBest, hw]
      rw [hstep]
      obtain ⟨ih1, ih2⟩ := ih
      constructor
      · intro h p hp
        rcases List.mem_cons.mp hp with hp | hp
        · subst hp
          exact Bool.not_eq_true _ ▸ (by simpa using hw)
        · exact ih1 h p hp
      · intro r hr
        obtain ⟨l1, l2, heq, hw', hstrict, hmin⟩ := ih2 r hr
        refine ⟨(k, t) :: l1, l2, by simp [heq], hw', ?_, ?_⟩
        · intro p hp hpw
          rcases List.mem_cons.mp hp with hp | hp
          · subst hp
            exact absurd hpw hw
          · exact hstrict p hp hpw
        · intro p hp hpw
          rcases List.mem_cons.mp hp with hp | hp
          · subst hp
            exact absurd hpw hw
          · exact hmin p hp hpw

theorem findInProgressTask_eq_none (l : Store) :
    findInProgressTask l = none ↔ ∀ p ∈ l, p.2.status ≠ Status.in_progress := by
  induction l with
  | nil => simp [findInProgressTask]
  | cons q rest ih =>
    obtain ⟨k, t⟩ := q
    by_cases h : t.status = Status.in_progress
    · simp [findInProgressTask, h]
    · simp [findInProgressTask, h, ih]

theorem findInProgressTask_some (l : Store) (e : String × Task)
    (h : findInProgressTask l = some e) : e ∈ l ∧ e.2.status = Status.in_progress := by
  induction l with
  | nil => simp [findInProgressTask] at h
  | cons q rest ih =>
    obtain ⟨k, t⟩ := q
    by_cases ht : t.status = Status.in_progress
    · simp [findInProgressTask, ht] at h
      subst h
      exact ⟨by simp, ht⟩
    · simp [findInProgressTask, ht] at h
      obtain ⟨hmem, hst⟩ := ih h
      exact ⟨by simp [hmem], hst⟩

/-! ## Concrete stores used for counterexamples and witnesses -/

/-- A task record with the given status, dependencies, blockers, priority and
creation stamp, and otherwise fresh fields. -/
def sampleTask (st : Status) (deps blk : List String) (prio : Priority) (created : Nat) : Task :=
  { title := "t"
    status := st
    priority := prio
    dependsOn := deps
    blockedBy := blk
    createdAt := created
    completedAt := none
    submissions := []
    reviews := [] }

/-- Store for the C1 counterexample: "A" is completed, "B" is a pending task
whose only dependency is the completed "A", "C" is a needs_revision task with
a missing dependency. -/
def c1store : Store :=
  [("A", sampleTask Status.completed [] [] Priority.medium 0),
   ("B", sampleTask Status.pending ["A"] [] Priority.medium 1),
   ("C", sampleTask Status.needs_revision ["Z"] [] Priority.medium 2)]

/-- Claim C1, counterexample.  "B" is in the recompute scope, is neither
completed nor in_review, every id in its `dependsOn` refers to a completed
task and its `blockedBy` is empty — yet the pass sets it to `blocked`, not
`available`: taskQueue.js:161-163 sends a `pending` task with a non-empty
`dependsOn` list to `blocked` even when all dependencies are completed.
Moreover "C" has status `needs_revision` but is not left unchanged: the pass
moves it to `blocked` because its dependency "Z" is unmet (taskQueue.js:156-157
applies to `needs_revision` and `in_progress` tasks too). -/
theorem c1_counterexample :
    ((findRec c1store "A").map Task.status = some Status.completed) ∧
    ((findRec c1store "B").map Task.status = some Status.pending) ∧
    ((findRec c1store "B").map Task.dependsOn = some ["A"]) ∧
    ((findRec c1store "B").map Task.blockedBy = some []) ∧
    ((findRec (updateTaskAvailability c1store none) "B").map Task.status
      = some Status.blocked) ∧
    ((findRec c1store "C").map Task.status = some Status.needs_revision) ∧
    ((findRec (updateTaskAvailability c1store none) "C").map Task.status
      = some Status.blocked) := by
  decide

/-- Claim C1 (amended): characterization of the full availability pass.  For a
task in the recompute scope: completed/in_review tasks are untouched; any
other task is set to `blocked` when some `dependsOn` id refers to a missing or
non-completed task or `blockedBy` is non-empty — including `needs_revision`
and `in_progress` tasks; otherwise a `blocked` task becomes `available`, a
`pending` task becomes `available` exactly when its `dependsOn` list is empty
and `blocked` otherwise, and `needs_revision`/`in_progress` tasks keep their
status. -/
theorem c1_availability_pass (s : Store) (hnd : (recKeys s).Nodup) (id : String) (t : Task)
    (h : findRec s id = some t) :
    ((t.status = Status.completed ∨ t.status = Status.in_review) →
      findRec (updateTaskAvailability s none) id = some t) ∧
    (t.status ≠ Status.completed → t.status ≠ Status.in_review →
      ((t.dependsOn.any (unmetDep s) = true ∨ t.blockedBy ≠ []) →
        (findRec (updateTaskAvailability s none) id).map Task.status
          = some Status.blocked) ∧
      (t.dependsOn.any (unmetDep s) = false → t.blockedBy = [] →
        (t.status = Status.blocked →
          (findRec (updateTaskAvailability s none) id).map Task.status
            = some Status.available) ∧
        (t.status = Status.pending →
          (findRec (updateTaskAvailability s none) id).map Task.status
            = some (if t.dependsOn = [] then Status.available else Status.blocked)) ∧
        ((t.status = Status.in_progress ∨ t.status = Status.needs_revision) →
          (findRec (updateTaskAvailability s none) id).map Task.status
            = some t.status))) := by
  have hall := updateAll_findRec s hnd id
  rw [h] at hall
  constructor
  · intro h1
    rw [hall]
    have heq : updTask s t = t := by
      simp [updTask, newStatus, h1]
    show some (updTask s t) = some t
    rw [heq]
  · intro hc hr
    have h1 : ¬ (t.status = Status.completed ∨ t.status = Status.in_review) := by
      rintro (he | he)
      · exact hc he
      · exact hr he
    constructor
    · intro h2
      rw [hall]
      have hb : (t.dependsOn.any (unmetDep s) || decide (t.blockedBy.length > 0)) = true := by
        rcases h2 with h2 | h2
        · simp [h2]
        · simp [List.length_pos, h2]
      simp [updTask, newStatus, h1, hb]
    · intro h2 h3
      have hb : (t.dependsOn.any (unmetDep s) || decide (t.blockedBy.length > 0)) = false := by
        simp [h2, h3]
      refine ⟨?_, ?_, ?_⟩
      · intro h4
        rw [hall]
        simp [updTask, newStatus, h1, hb, h4]
      · intro h4
        rw [hall]
        have h5 : t.status ≠ Status.blocked := by
          rw [h4]
          decide
        simp [updTask, newStatus, h1, hb, h5, h4, List.length_eq_zero]
      · intro h4
        rw [hall]
        have h5 : t.status ≠ Status.blocked := by
          rcases h4 with h4 | h4 <;> rw [h4] <;> decide
        have h6 : t.status ≠ Status.pending := by
          rcases h4 with h4 | h4 <;> rw [h4] <;> decide
        simp [updTask, newStatus, h1, hb, h5, h6]

/-- Store for the C1 witness: a blocked task with no dependencies and no
blockers. -/
def c1wstore : Store := [("B", sampleTask Status.blocked [] [] Priority.medium 0)]

/-- Witness for `c1_availability_pass`: on `c1wstore` the blocked task "B"
becomes available. -/
theorem c1_availability_pass_witness :
    (findRec (updateTaskAvailability c1wstore none) "B").map Task.status
      = some Status.available :=
  (((c1_availability_pass c1wstore (by decide) "B"
      (sampleTask Status.blocked [] [] Priority.medium 0) (by decide)).2
    (by decide) (by decide)).2 (by decide) (by decide)).1 (by decide)

/-- Store for the C2 counterexample: "A" is in review; "B" is a reachable
needs_revision dependent of "A" (submit work on "B" while blocked, review it
needs_revision, then submit "A"). -/
def c2store : Store :=
  [("A", sampleTask Status.in_review [] [] Priority.medium 0),
   ("B", sampleTask Status.needs_revision ["A"] [] Priority.medium 1)]

def c2review : Review := { taskId := "A", status := Verdict.approved, feedback := "ok" }

/-- Claim C2, counterexample.  Approving "A" completes "A" and recomputes
availability over all tasks, but the dependent "B" — whose dependencies are
now all completed and whose `blockedBy` is empty — does not become
`available`: the pass leaves `needs_revision` tasks with met dependencies
untouched (taskQueue.js:156-164 has no branch for them), so "B" stays
`needs_revision`. -/
theorem c2_counterexample :
    ((findRec c2store "B").map Task.dependsOn = some ["A"]) ∧
    ((findRec c2store "B").map Task.blockedBy = some []) ∧
    ((match addReview c2store c2review 5 with
      | Except.ok s2 => (findRec s2 "A").map Task.status
      | Except.error _ => none) = some Status.completed) ∧
    ((match addReview c2store c2review 5 with
      | Except.ok s2 => (findRec s2 "B").map Task.status
      | Except.error _ => none) = some Status.needs_revision) := by
  decide

/-- Claim C2 (amended): for every existing task, review with verdict
`approved` appends the review, sets status `completed` and `completedAt`, and
recomputes availability over all tasks, so that every dependent that was
`blocked`, whose dependencies are now all completed and whose `blockedBy` is
empty becomes `available`, while a dependent in `needs_revision` or
`in_progress` whose dependencies are now all completed and whose `blockedBy`
is empty keeps its status (it does not become `available`); review with
verdict `needs_revision` sets status `needs_revision` and leaves every other
task unchanged; review of an unknown taskId fails with the not-found
error. -/
theorem c2_review (s : Store) (hnd : (recKeys s).Nodup) (r : Review) (now : Nat) :
    (findRec s r.taskId = none →
      addReview s r now = Except.error (TQErr.notFound r.taskId)) ∧
    (∀ t, findRec s r.taskId = some t →
      (r.status = Verdict.approved →
        ∃ s2, addReview s r now = Except.ok s2 ∧
          findRec s2 r.taskId = some (approvedTask t r now) ∧
          (∀ id u, id ≠ r.taskId → findRec s id = some u →
            u.status = Status.blocked → u.blockedBy = [] →
            u.dependsOn.any (unmetDep (setRec s r.taskId (approvedTask t r now))) = false →
            (findRec s2 id).map Task.status = some Status.available) ∧
          (∀ id u, id ≠ r.taskId → findRec s id = some u →
            (u.status = Status.needs_revision ∨ u.status = Status.in_progress) →
            u.blockedBy = [] →
            u.dependsOn.any (unmetDep (setRec s r.taskId (approvedTask t r now))) = false →
            (findRec s2 id).map Task.status = some u.status)) ∧
      (r.status = Verdict.needs_revision →
        ∃ s2, addReview s r now = Except.ok s2 ∧
          findRec s2 r.taskId = some (revisedTask t r) ∧
          (∀ id, id ≠ r.taskId → findRec s2 id = findRec s id))) := by
  constructor
  · intro h
    simp [addReview, h]
  · intro t ht
    have hkeys : recKeys (setRec s r.taskId (approvedTask t r now)) = recKeys s :=
      recKeys_setRec _ (by rw [ht]; exact fun he => Option.noConfusion he)
    have hndk : (recKeys (setRec s r.taskId (approvedTask t r now))).Nodup := by
      rw [hkeys]
      exact hnd
    constructor
    · intro ha
      refine ⟨updateTaskAvailability (setRec s r.taskId (approvedTask t r now)) none,
        ?_, ?_, ?_, ?_⟩
      · simp [addReview, ht, ha, approvedTask]
      · have hall := updateAll_findRec _ hndk r.taskId
        rw [findRec_setRec_self] at hall
        rw [hall]
        have heq : updTask (setRec s r.taskId (approvedTask t r now))
            (approvedTask t r now) = approvedTask t r now := by
          simp [updTask, newStatus, approvedTask]
        show some (updTask (setRec s r.taskId (approvedTask t r now))
          (approvedTask t r now)) = some (approvedTask t r now)
        rw [heq]
      · intro id u hne hu hb hbb hdep
        have hall := updateAll_findRec _ hndk id
        rw [findRec_setRec_ne _ _ _ _ hne, hu] at hall
        rw [hall]
        have h1 : ¬ (u.status = Status.completed ∨ u.status = Status.in_review) := by
          rw [hb]
          decide
        simp [updTask, newStatus, h1, hdep, hbb, hb]
      · intro id u hne hu hst hbb hdep
        have hall := updateAll_findRec _ hndk id
        rw [findRec_setRec_ne _ _ _ _ hne, hu] at hall
        rw [hall]
        have h1 : ¬ (u.status = Status.completed ∨ u.status = Status.in_review) := by
          rcases hst with hst | hst <;> rw [hst] <;> decide
        have h5 : u.status ≠ Status.blocked := by
          rcases hst with hst | hst <;> rw [hst] <;> decide
        have h6 : u.status ≠ Status.pending := by
          rcases hst with hst | hst <;> rw [hst] <;> decide
        simp [updTask, newStatus, h1, hdep, hbb, h5, h6]
    · intro hn
      have hna : r.status ≠ Verdict.approved := by
        rw [hn]
        decide
      refine ⟨setRec s r.taskId (revisedTask t r), ?_, ?_, ?_⟩
      · simp [addReview, ht, hna, revisedTask]
      · rw [findRec_setRec_self]
      · intro id hne
        exact findRec_setRec_ne _ _ _ _ hne

/-- Store for the C2 witness: the dependent "B" is `blocked` on "A". -/
def c2wstore : Store :=
  [("A", sampleTask Status.in_review [] [] Priority.medium 0),
   ("B", sampleTask Status.blocked ["A"] [] Priority.medium 1)]

/-- Witness for `c2_review`: approving "A" makes the blocked dependent "B"
available. -/
theorem c2_review_witness :
    (match addReview c2wstore c2review 7 with
      | Except.ok s2 => (findRec s2 "B").map Task.status
      | Except.error _ => none) = some Status.available := by
  have hmain := c2_review c2wstore (by decide) c2review 7
  have happ := (hmain.2 (sampleTask Status.in_review [] [] Priority.medium 0) (by decide)).1
    (by decide)
  obtain ⟨s2, hok, hA, hdep, hkeep⟩ := happ
  rw [hok]
  exact hdep "B" (sampleTask Status.blocked ["A"] [] Priority.medium 1)
    (by decide) (by decide) (by decide) (by decide) (by decide)

/-- Store for the C3 counterexample: two available tasks of equal priority;
the later-created one ("T2") sits later in the store. -/
def c3cstore : Store :=
  [("T1", sampleTask Status.available [] [] Priority.medium 10),
   ("T2", sampleTask Status.available [] [] Priority.medium 5)]

/-- Claim C3, counterexample.  "T1" and "T2" are both available with equal
priority rank, no task is `in_progress`, and "T2" has the strictly earlier
`createdAt` (5 < 10) — yet `getNextWorkableTask` returns "T1": the scan at
taskQueue.js:296-318 replaces the running best only on a strictly smaller
priority rank and never consults `createdAt`, so ties go to store iteration
order, not creation time. -/
theorem c3_counterexample :
    ((findRec c3cstore "T1").map Task.status = some Status.available) ∧
    ((findRec c3cstore "T2").map Task.status = some Status.available) ∧
    ((findRec c3cstore "T1").map Task.priority = some Priority.medium) ∧
    ((findRec c3cstore "T2").map Task.priority = some Priority.medium) ∧
    ((findRec c3cstore "T1").map Task.createdAt = some 10) ∧
    ((findRec c3cstore "T2").map Task.createdAt = some 5) ∧
    (findInProgressTask (updateTaskAvailability c3cstore none) = none) ∧
    ((getNextWorkableTask c3cstore).1.map Prod.fst = some "T1") := by
  decide

/-- Claim C3 (amended): `getNextWorkableTask` first recomputes availability
over all tasks and persists the result; against the recomputed store, it
returns the first `in_progress` task when one exists; otherwise, among tasks
with status `available` or `needs_revision`, it returns the one with the
numerically lowest priority rank, ties broken by earliest position in store
iteration order (`createdAt` is not consulted); it returns none when the
recomputed store has no `in_progress`, `available` or `needs_revision`
task. -/
theorem c3_selectNextTask (s : Store) :
    ((getNextWorkableTask s).2 = updateTaskAvailability s none) ∧
    ((∃ p, p ∈ updateTaskAvailability s none ∧ p.2.status = Status.in_progress) →
      ∃ e, (getNextWorkableTask s).1 = some e ∧ e ∈ updateTaskAvailability s none ∧
        e.2.status = Status.in_progress) ∧
    ((getNextWorkableTask s).1 = none →
      ∀ p ∈ updateTaskAvailability s none,
        p.2.status ≠ Status.in_progress ∧ workable p.2 = false) ∧
    ((∀ p ∈ updateTaskAvailability s none, p.2.status ≠ Status.in_progress) →
      ∀ r, (getNextWorkableTask s).1 = some r →
        ∃ l1 l2, updateTaskAvailability s none = l1 ++ r :: l2 ∧ workable r.2 ∧
          (∀ p ∈ l1, workable p.2 →
            priorityOrder r.2.priority < priorityOrder p.2.priority) ∧
          (∀ p ∈ updateTaskAvailability s none, workable p.2 →
            priorityOrder r.2.priority ≤ priorityOrder p.2.priority)) := by
  cases hip : findInProgressTask (updateTaskAvailability s none) with
  | some e =>
    have hsel : getNextWorkableTask s =
        (some e, updateTaskAvailability s none) := by
      simp [getNextWorkableTask, hip]
    obtain ⟨hmem, hst⟩ := findInProgressTask_some _ _ hip
    refine ⟨by rw [hsel], ?_, ?_, ?_⟩
    · intro _
      exact ⟨e, by rw [hsel], hmem, hst⟩
    · intro hnone
      rw [hsel] at hnone
      exact absurd hnone (by simp)
    · intro hnoip r _
      exact absurd hst (hnoip e hmem)
  | none =>
    have hsel : getNextWorkableTask s =
        (pickBest none (updateTaskAvailability s none), updateTaskAvailability s none) := by
      simp [getNextWorkableTask, hip]
    have hnoip := (findInProgressTask_eq_none _).mp hip
    refine ⟨by rw [hsel], ?_, ?_, ?_⟩
    · rintro ⟨p, hmem, hst⟩
      exact absurd hst (hnoip p hmem)
    · intro hnone p hmem
      rw [hsel] at hnone
      have hw := (pickBest_none_spec (updateTaskAvailability s none)).1 hnone p hmem
      exact ⟨hnoip p hmem, hw⟩
    · intro _ r hr
      rw [hsel] at hr
      exact (pickBest_none_spec (updateTaskAvailability s none)).2 r hr

/-- Store for the C3 witness: a single `in_progress` task. -/
def c3wstore : Store := [("W", sampleTask Status.in_progress [] [] Priority.medium 0)]

/-- Witness for `c3_selectNextTask`: with an in_progress task present, the
selection has status `in_progress`. -/
theorem c3_selectNextTask_witness :
    ((getNextWorkableTask c3wstore).1.map (fun e => e.2.status))
      = some Status.in_progress := by
  have hmain := (c3_selectNextTask c3wstore).2.1
    ⟨("W", sampleTask Status.in_progress [] [] Priority.medium 0), by decide, by decide⟩
  obtain ⟨e, he, hmem, hst⟩ := hmain
  rw [he]
  simp [hst]

/-- Store for the C4 counterexample: an existing completed task "T1" that
already carries a submission. -/
def c4store : Store :=
  [("T1", { sampleTask Status.completed [] [] Priority.medium 0 with
      submissions := [{ taskId := "T1", summary := "done" }] })]

def c4dir : Directive :=
  { taskId := "T1", title := "redo", status := Status.pending, createdAt := 9,
    priority := none, dependsOn := none, blockedBy := none }

/-- Claim C4, counterexample.  A task with id "T1" already exists, yet
`addDirective` with that id does not fail — taskQueue.js:42-61 has no
duplicate-id check — and the existing record is not left unchanged: the
unconditional assignment replaces it, resetting its submission list. -/
theorem c4_counterexample :
    ((findRec c4store "T1").map (fun t => t.submissions.length) = some 1) ∧
    ((addDirective c4store c4dir).1 = "T1") ∧
    ((findRec (addDirective c4store c4dir).2 "T1").map (fun t => t.submissions.length)
      = some 0) ∧
    (findRec (addDirective c4store c4dir).2 "T1" ≠ findRec c4store "T1") := by
  decide

/-- Claim C4 (amended): `addDirective` never fails.  For every store — whether
or not a task with the given id exists — it overwrites the slot with a fresh
record built from the directive (empty submission and review lists,
`||`-defaulted priority/dependsOn/blockedBy), runs the availability recompute
restricted to that id, and leaves every other record unchanged. -/
theorem c4_addDirective (s : Store) (d : Directive) :
    ((addDirective s d).1 = d.taskId) ∧
    (∃ t, findRec (addDirective s d).2 d.taskId = some t ∧
      t.submissions = [] ∧ t.reviews = [] ∧ t.title = d.title ∧
      t.dependsOn = d.dependsOn.getD [] ∧ t.blockedBy = d.blockedBy.getD [] ∧
      t.priority = d.priority.getD Priority.medium ∧ t.createdAt = d.createdAt ∧
      t.status = newStatus (setRec s d.taskId (directiveTask d)) (directiveTask d)) ∧
    (∀ id, id ≠ d.taskId → findRec (addDirective s d).2 id = findRec s id) := by
  refine ⟨rfl, ?_, ?_⟩
  · refine ⟨updTask (setRec s d.taskId (directiveTask d)) (directiveTask d), ?_,
      rfl, rfl, rfl, rfl, rfl, rfl, rfl, rfl⟩
    show findRec (updateTaskAvailability (setRec s d.taskId (directiveTask d))
      (some d.taskId)) d.taskId = _
    rw [updateSingle_findRec, findRec_setRec_self]
    rfl
  · intro id hne
    show findRec (updateTaskAvailability (setRec s d.taskId (directiveTask d))
      (some d.taskId)) id = findRec s id
    rw [updateSingle_findRec_ne _ _ _ hne, findRec_setRec_ne _ _ _ _ hne]

/-- Witness for `c4_addDirective`: adding the duplicate directive of the C4
counterexample leaves the unrelated id "Z" untouched. -/
theorem c4_addDirective_witness :
    findRec (addDirective c4store c4dir).2 "Z" = findRec c4store "Z" :=
  (c4_addDirective c4store c4dir).2.2 "Z" (by decide)

/-- The record `addSubmission` writes (taskQueue.js:71-72): submission
appended, status `in_review`. -/
def submittedTask (t : Task) (sub : Submission) : Task :=
  { t with submissions := t.submissions ++ [sub], status := Status.in_review }

/-- Claim C9: `addSubmission` has no precondition on the prior status — for
every existing task, whatever its status (including `completed`), it appends
the submission and sets the status to `in_review`; an unknown id fails with
the not-found error. -/
theorem c9_addSubmission (s : Store) (sub : Submission) :
    (findRec s sub.taskId = none →
      addSubmission s sub = Except.error (TQErr.notFound sub.taskId)) ∧
    (∀ t, findRec s sub.taskId = some t →
      ∃ s2, addSubmission s sub = Except.ok s2 ∧
        findRec s2 sub.taskId = some (submittedTask t sub) ∧
        (∀ id, id ≠ sub.taskId → findRec s2 id = findRec s id)) := by
  constructor
  · intro h
    simp [addSubmission, h]
  · intro t ht
    refine ⟨setRec s sub.taskId (submittedTask t sub), ?_, ?_, ?_⟩
    · simp [addSubmission, ht, submittedTask]
    · rw [findRec_setRec_self]
    · intro id hne
      exact findRec_setRec_ne _ _ _ _ hne

/-- Store for the C9 witness: a completed task. -/
def c9wstore : Store := [("D", sampleTask Status.completed [] [] Priority.medium 0)]

def c9wsub : Submission := { taskId := "D", summary := "more" }

/-- Witness for `c9_addSubmission`: submitting against the completed task "D"
moves it back to `in_review`. -/
theorem c9_addSubmission_witness :
    (match addSubmission c9wstore c9wsub with
      | Except.ok s2 => (findRec s2 "D").map Task.status
      | Except.error _ => none) = some Status.in_review := by
  have hmain := (c9_addSubmission c9wstore c9wsub).2
    (sampleTask Status.completed [] [] Priority.medium 0) (by decide)
  obtain ⟨s2, hok, hrec, _⟩ := hmain
  rw [hok]
  show (findRec s2 c9wsub.taskId).map Task.status = some Status.in_review
  rw [hrec]
  rfl

/-- Store for the C10 statement: two tasks, neither completed nor in_review,
both of whose statuses the recompute changes. -/
def c10store : Store :=
  [("T1", sampleTask Status.pending [] [] Priority.medium 0),
   ("T2", sampleTask Status.available [] ["X"] Priority.medium 1)]

/-- Claim C10: the read queries are not pure reads.  `getPendingTasks` and
`getNextWorkableTask` both run the availability recompute over all tasks and
persist the resulting store before returning (taskQueue.js:168-173 and
280-285), and on `c10store` this changes the status of every task (each of
which is neither `completed` nor `in_review`): "T1" goes `pending` →
`available` and "T2" goes `available` → `blocked`. -/
theorem c10_queries_persist_recompute :
    (∀ s : Store, getPendingTasksStore s = updateTaskAvailability s none) ∧
    (∀ s : Store, (getNextWorkableTask s).2 = updateTaskAvailability s none) ∧
    (((findRec c10store "T1").map Task.status = some Status.pending) ∧
      ((findRec c10store "T2").map Task.status = some Status.available) ∧
      ((findRec (getPendingTasksStore c10store) "T1").map Task.status
        = some Status.available) ∧
      ((findRec (getPendingTasksStore c10store) "T2").map Task.status
        = some Status.blocked) ∧
      ((findRec (getNextWorkableTask c10store).2 "T1").map Task.status
        = some Status.available) ∧
      ((findRec (getNextWorkableTask c10store).2 "T2").map Task.status
        = some Status.blocked)) := by
  refine ⟨fun s => rfl, fun s => ?_, by decide⟩
  cases hip : findInProgressTask (updateTaskAvailability s none) <;>
    simp [getNextWorkableTask, hip]

/-! ## Mission tracker (`missionManager.js`) -/

inductive MissionStatus where
  | active
  | paused
  | completed
  | stopped
  deriving DecidableEq

/-- A mission record as stored in `missions.json` (missionManager.js:45-61);
free-text fields not touched by any claim are omitted. -/
structure Mission where
  id : String
  title : String
  status : MissionStatus
  tasks : List String
  iterations : Nat
  maxIterations : Nat
  acceptanceCriteria : List String
  deriving DecidableEq

abbrev Missions := List (String × Mission)

inductive MMErr where
  | notFound (missionId : String)
  deriving DecidableEq

structure CriteriaCheck where
  allMet : Bool
  requiresEvaluation : Bool
  deriving DecidableEq

/-- `checkAcceptanceCriteria` (missionManager.js:184-199): the baseline
evaluator reports every criterion as `pending_evaluation` and always returns
`allMet: false`, `requiresEvaluation: true`. -/
def checkAcceptanceCriteria (mission : Mission) : CriteriaCheck :=
  { allMet := false, requiresEvaluation := true }

/-- The progress counts of `checkMissionProgress` (missionManager.js:151-161).
`blockedTasks` filters on `t.blocked`, a field task records never carry, so
that count is always 0; `percentComplete` (floating-point `Math.round`) is
display-only and not modelled. -/
structure MissionProgress where
  totalTasks : Nat
  completedTasks : Nat
  inProgressTasks : Nat
  pendingTasks : Nat
  blockedTasks : Nat
  deriving DecidableEq

def missionProgress (taskStore : Store) (mission : Mission) : MissionProgress :=
  let taskStatuses := mission.tasks.map (findRec taskStore)
  { totalTasks := mission.tasks.length
    completedTasks := (taskStatuses.filter (fun o => match o with
      | some t => decide (t.status = Status.completed)
      | none => false)).length
    inProgressTasks := (taskStatuses.filter (fun o => match o with
      | some t => decide (t.status = Status.in_review)
      | none => false)).length
    pendingTasks := (taskStatuses.filter (fun o => match o with
      | some t => decide (t.status = Status.pending ∨ t.status = Status.needs_revision)
      | none => false)).length
    blockedTasks := 0 }

/-- `checkMissionProgress(missionId)` (missionManager.js:138-182): throw if
unknown; compute the progress counts; increment `iterations` unconditionally;
save; return `shouldContinue = (status == 'active') && (iterations <
maxIterations)` over the post-increment snapshot.  The acceptance-criteria
branch (lines 163-172) fires only when `criteriaCheck.allMet` holds, and
`checkAcceptanceCriteria` always returns `allMet: false`; even if it fired,
the `updateMissionStatus` write inside it operates on a fresh disk copy that
the final `saveMissions(missions)` of the stale in-memory copy overwrites, so
the saved store is unaffected by it. -/
def checkMissionProgress (missions : Missions) (taskStore : Store) (missionId : String) :
    Except MMErr (Mission × MissionProgress × Bool × Missions) :=
  match findRec missions missionId with
  | none => Except.error (MMErr.notFound missionId)
  | some mission =>
    let progress := missionProgress taskStore mission
    let mission := { mission with iterations := mission.iterations + 1 }
    Except.ok (mission, progress,
      decide (mission.status = MissionStatus.active) &&
        decide (mission.iterations < mission.maxIterations),
      setRec missions missionId mission)

/-- Claim C6: every `checkMissionProgress` call on an existing mission
increments the iteration counter by exactly 1 — regardless of the progress
outcome, since the increment is unconditional — and the returned
`shouldContinue` is false exactly when the mission's status is not `active`
or the (post-increment) iteration counter has reached `maxIterations`. -/
theorem c6_checkProgress (missions : Missions) (taskStore : Store) (mid : String)
    (m : Mission) (h : findRec missions mid = some m) :
    ∃ m2 prog sc missions2,
      checkMissionProgress missions taskStore mid = Except.ok (m2, prog, sc, missions2) ∧
      m2.iterations = m.iterations + 1 ∧
      m2.status = m.status ∧
      m2.maxIterations = m.maxIterations ∧
      findRec missions2 mid = some m2 ∧
      (sc = false ↔ (m2.status ≠ MissionStatus.active ∨ m2.maxIterations ≤ m2.iterations)) := by
  have hcall : checkMissionProgress missions taskStore mid
      = Except.ok ({ m with iterations := m.iterations + 1 }, missionProgress taskStore m,
        decide (m.status = MissionStatus.active) &&
          decide (m.iterations + 1 < m.maxIterations),
        setRec missions mid { m with iterations := m.iterations + 1 }) := by
    simp [checkMissionProgress, h]
  refine ⟨_, _, _, _, hcall, rfl, rfl, rfl, by rw [findRec_setRec_self], ?_⟩
  show (decide (m.status = MissionStatus.active) &&
      decide (m.iterations + 1 < m.maxIterations)) = false ↔
    (m.status ≠ MissionStatus.active ∨ m.maxIterations ≤ m.iterations + 1)
  by_cases h1 : m.status = MissionStatus.active <;>
    by_cases h2 : m.iterations + 1 < m.maxIterations <;>
      simp [h1, h2, not_lt] <;> omega

/-- Mission for the C6 witness: active, one step from its iteration bound. -/
def c6wmission : Mission :=
  { id := "M"
    title := "m"
    status := MissionStatus.active
    tasks := ["T1"]
    iterations := 0
    maxIterations := 1
    acceptanceCriteria := [] }

def c6wmissions : Missions := [("M", c6wmission)]

/-- Witness for `c6_checkProgress`: on `c6wmissions` the call returns
`shouldContinue = false` because the counter reaches `maxIterations`. -/
theorem c6_checkProgress_witness :
    (match checkMissionProgress c6wmissions [] "M" with
      | Except.ok (_, _, sc, _) => some sc
      | Except.error _ => none) = some false := by
  have hmain := c6_checkProgress c6wmissions [] "M" c6wmission (by rfl)
  obtain ⟨m2, prog, sc, missions2, hok, hit, hst, hmax, hfind, hiff⟩ := hmain
  rw [hok]
  have hsc : sc = false := hiff.mpr (Or.inr (by rw [hmax, hit]; decide))
  rw [hsc]

/-! ## Project plans (`projectPlanManager.js`) -/

inductive PlanStatus where
  | active
  | paused
  | completed
  deriving DecidableEq

structure Phase where
  name : String
  description : String
  deriving DecidableEq

/-- An entry of the completed-phase log (projectPlanManager lines 92-96): the
finished phase's index and timestamp plus the spread of the phase record
(`undefined` — i.e. `none` — when `currentPhase` is out of range). -/
structure CompletedPhase where
  phaseIndex : Nat
  completedAt : Nat
  phase : Option Phase
  deriving DecidableEq

/-- A plan record as stored in `project-plans.json` (projectPlanManager
lines 45-59); fields not touched by any claim are omitted. -/
structure Plan where
  id : String
  title : String
  phases : List Phase
  currentPhase : Nat
  status : PlanStatus
  completedPhases : List CompletedPhase
  completedAt : Option Nat
  deriving DecidableEq

abbrev Plans := List (String × Plan)

inductive PPErr where
  | notFound (planId : String)
  deriving DecidableEq

/-- The phase-completion block of `updatePlanProgress` (projectPlanManager
lines 91-104): append the finished phase with its index and timestamp,
increment `currentPhase`, and mark the plan completed (stamping
`completedAt`) when the incremented index reaches the number of phases. -/
def advanceStep (plan : Plan) (now : Nat) : Plan :=
  let finished : CompletedPhase :=
    { phaseIndex := plan.currentPhase, completedAt := now,
      phase := plan.phases.get? plan.currentPhase }
  let plan2 :=
    { plan with
        completedPhases := plan.completedPhases ++ [finished],
        currentPhase := plan.currentPhase + 1 }
  if plan2.currentPhase ≥ plan2.phases.length then
    { plan2 with status := PlanStatus.completed, completedAt := some now }
  else plan2

/-- `updatePlanProgress(planId, updates)` (projectPlanManager lines 77-108):
throw if unknown; merge the updates; when `updates.currentPhaseComplete` is
truthy, run the phase-completion block; save.  The advance-phase call sites
pass `{ currentPhaseComplete: true, ... }`, so the merge is modelled by the
boolean flag; the `lastUpdated` stamp and other merged progress fields do not
bear on any claim. -/
def updatePlanProgress (plans : Plans) (planId : String) (currentPhaseComplete : Bool)
    (now : Nat) : Except PPErr (Plan × Plans) :=
  match findRec plans planId with
  | none => Except.error (PPErr.notFound planId)
  | some plan =>
    let plan := if currentPhaseComplete then advanceStep plan now else plan
    Except.ok (plan, setRec plans planId plan)

structure NextPhase where
  phase : Phase
  phaseNumber : Nat
  totalPhases : Nat
  previousPhases : List CompletedPhase
  deriving DecidableEq

/-- `getNextPhase(planId)` (projectPlanManager lines 145-163): `none` when the
plan is missing or not active or `currentPhase` is past the end of the phase
list; otherwise the phase at `currentPhase` plus the completed-phase log. -/
def getNextPhase (plans : Plans) (planId : String) : Option NextPhase :=
  match findRec plans planId with
  | none => none
  | some plan =>
    if plan.status ≠ PlanStatus.active then none
    else
      match plan.phases.get? plan.currentPhase with
      | some ph =>
        some { phase := ph, phaseNumber := plan.currentPhase + 1,
               totalPhases := plan.phases.length, previousPhases := plan.completedPhases }
      | none => none

/-- `k` successive advance-phase calls, at plan level. -/
def advanceN (plan : Plan) (now : Nat) : Nat → Plan
  | 0 => plan
  | k + 1 => advanceStep (advanceN plan now k) now

theorem advanceStep_phases (q : Plan) (now : Nat) :
    (advanceStep q now).phases = q.phases := by
  by_cases hc : q.currentPhase + 1 ≥ q.phases.length <;> simp [advanceStep, hc]

theorem advanceStep_currentPhase (q : Plan) (now : Nat) :
    (advanceStep q now).currentPhase = q.currentPhase + 1 := by
  by_cases hc : q.currentPhase + 1 ≥ q.phases.length <;> simp [advanceStep, hc]

theorem advanceStep_completedPhases (q : Plan) (now : Nat) :
    (advanceStep q now).completedPhases = q.completedPhases ++
      [{ phaseIndex := q.currentPhase, completedAt := now,
         phase := q.phases.get? q.currentPhase }] := by
  by_cases hc : q.currentPhase + 1 ≥ q.phases.length <;> simp [advanceStep, hc]

theorem advanceStep_status (q : Plan) (now : Nat) :
    (advanceStep q now).status
      = (if q.currentPhase + 1 ≥ q.phases.length then PlanStatus.completed else q.status) := by
  by_cases hc : q.currentPhase + 1 ≥ q.phases.length <;> simp [advanceStep, hc]

theorem advanceN_spec (p : Plan) (now : Nat) (hact : p.status = PlanStatus.active)
    (h0 : p.currentPhase = 0) :
    ∀ k, k ≤ p.phases.length →
      (advanceN p now k).phases = p.phases ∧
      (advanceN p now k).currentPhase = k ∧
      (advanceN p now k).completedPhases = p.completedPhases ++ (List.range k).map
        (fun i => { phaseIndex := i, completedAt := now, phase := p.phases.get? i }) ∧
      (advanceN p now k).status
        = (if k = p.phases.length ∧ 0 < k then PlanStatus.completed else PlanStatus.active) := by
  intro k
  induction k with
  | zero =>
    intro _
    refine ⟨rfl, h0, by simp [advanceN], ?_⟩
    have hne : ¬ ((0 : Nat) = p.phases.length ∧ 0 < 0) := by
      rintro ⟨-, hlt⟩
      exact absurd hlt (by omega)
    simp [advanceN, hne, hact]
  | succ k ih =>
    intro hk
    have hk' : k ≤ p.phases.length := by omega
    obtain ⟨hph, hcur, hcomp, hst⟩ := ih hk'
    have hstA : (advanceN p now k).status = PlanStatus.active := by
      rw [hst]
      have hne : ¬ (k = p.phases.length ∧ 0 < k) := by
        rintro ⟨he, -⟩
        omega
      simp [hne]
    have hunf : advanceN p now (k + 1) = advanceStep (advanceN p now k) now := rfl
    refine ⟨?_, ?_, ?_, ?_⟩
    · rw [hunf, advanceStep_phases, hph]
    · rw [hunf, advanceStep_currentPhase, hcur]
    · rw [hunf, advanceStep_completedPhases, hcomp, hcur, hph, List.range_succ]
      simp
    · rw [hunf, advanceStep_status, hcur, hph, hstA]
      by_cases hdone : k + 1 ≥ p.phases.length
      · have h1 : k + 1 = p.phases.length ∧ 0 < k + 1 := ⟨by omega, by omega⟩
        have h2 : 0 < p.phases.length := by omega
        simp [hdone, h1, h2]
      · have h1 : ¬ (k + 1 = p.phases.length ∧ 0 < k + 1) := by
          rintro ⟨he, -⟩
          omega
        have h2 : k + 1 ≠ p.phases.length := by omega
        simp [hdone, h1, h2]

/-- Claim C7: for an active plan at phase index 0 with `n` phases, each
advance-phase call (`updatePlanProgress` with `currentPhaseComplete`) appends
the finished phase with its index and timestamp and increments
`currentPhase`; after `n` calls the index equals `n`, the log holds all `n`
phases in order, the status is `completed` (when `n > 0`), and `getNextPhase`
returns none — as it does for any plan that is not active or whose index is
past the end of the phase list. -/
theorem c7_advancePhases (plans : Plans) (pid : String) (p : Plan) (now : Nat)
    (h : findRec plans pid = some p) (hact : p.status = PlanStatus.active)
    (h0 : p.currentPhase = 0) :
    (updatePlanProgress plans pid true now
      = Except.ok (advanceStep p now, setRec plans pid (advanceStep p now))) ∧
    ((advanceN p now p.phases.length).currentPhase = p.phases.length) ∧
    ((advanceN p now p.phases.length).completedPhases
      = p.completedPhases ++ (List.range p.phases.length).map
        (fun i => { phaseIndex := i, completedAt := now, phase := p.phases.get? i })) ∧
    (0 < p.phases.length →
      (advanceN p now p.phases.length).status = PlanStatus.completed) ∧
    (getNextPhase (setRec plans pid (advanceN p now p.phases.length)) pid = none) := by
  obtain ⟨hph, hcur, hcomp, hst⟩ :=
    advanceN_spec p now hact h0 p.phases.length (le_refl _)
  refine ⟨by simp [updatePlanProgress, h], hcur, hcomp, ?_, ?_⟩
  · intro hpos
    rw [hst]
    simp [hpos]
  · have hfind : findRec (setRec plans pid (advanceN p now p.phases.length)) pid
        = some (advanceN p now p.phases.length) := findRec_setRec_self _ _ _
    by_cases hpos : 0 < p.phases.length
    · have hcompleted : (advanceN p now p.phases.length).status = PlanStatus.completed := by
        rw [hst]
        simp [hpos]
      simp [getNextPhase, hfind, hcompleted]
    · have hl0 : p.phases.length = 0 := by omega
      have hactive : (advanceN p now p.phases.length).status = PlanStatus.active := by
        rw [hst]
        simp [hl0]
      have hnil : (advanceN p now p.phases.length).phases = [] := by
        rw [hph]
        exact List.length_eq_zero.mp hl0
      simp [getNextPhase, hfind, hactive, hnil]

/-- Plan for the C7 witness: active, two phases, at index 0. -/
def c7wplan : Plan :=
  { id := "P"
    title := "p"
    phases := [{ name := "a", description := "d1" }, { name := "b", description := "d2" }]
    currentPhase := 0
    status := PlanStatus.active
    completedPhases := []
    completedAt := none }

def c7wplans : Plans := [("P", c7wplan)]

/-- Witness for `c7_advancePhases`: two advance calls complete the two-phase
plan and `getNextPhase` returns none afterwards. -/
theorem c7_advancePhases_witness :
    (advanceN c7wplan 9 2).status = PlanStatus.completed ∧
    getNextPhase (setRec c7wplans "P" (advanceN c7wplan 9 2)) "P" = none := by
  have hmain := c7_advancePhases c7wplans "P" c7wplan 9 (by rfl) (by rfl) (by rfl)
  exact ⟨hmain.2.2.2.1 (by decide), hmain.2.2.2.2⟩

/-! ## Loop state manager (`loopStateManager.js`, whose full source appears in
`docs/autonomous-workflow.md` lines 268-373) -/

structure LoopState where
  agentName : String
  mode : String
  checkInterval : Nat
  maxIterations : Nat
  currentIteration : Nat
  isActive : Bool
  startedAt : Option Nat
  lastCheckAt : Option Nat
  nextCheckAt : Nat
  tasksCompleted : Nat
  reviewsCompleted : Nat
  stoppedAt : Option Nat
  stopReason : Option String
  deriving DecidableEq

abbrev LoopStates := List (String × LoopState)

/-- JavaScript `x || d` on an optional number: `0` is falsy and also falls
back to the default. -/
def orDefault (v : Option Nat) (d : Nat) : Nat :=
  match v with
  | none => d
  | some 0 => d
  | some k => k

structure LoopOptions where
  mode : Option String
  checkInterval : Option Nat
  maxIterations : Option Nat
  deriving DecidableEq

/-- `startLoop(agentName, options)` (autonomous-workflow.md lines 298-317):
build a fresh state with `currentIteration: 0`, `isActive: true` and
`||`-defaulted options, store it under the agent name, save. -/
def startLoop (states : LoopStates) (agentName : String) (options : LoopOptions)
    (now : Nat) : LoopState × LoopStates :=
  let loopState : LoopState :=
    { agentName := agentName
      mode := options.mode.getD "continuous"
      checkInterval := orDefault options.checkInterval 30
      maxIterations := orDefault options.maxIterations 100
      currentIteration := 0
      isActive := true
      startedAt := some now
      lastCheckAt := none
      nextCheckAt := now + (orDefault options.checkInterval 30) * 1000
      tasksCompleted := 0
      reviewsCompleted := 0
      stoppedAt := none
      stopReason := none }
  (loopState, setRec states agentName loopState)

/-- `updates` object of `updateLoop`: the source merges an arbitrary
caller-supplied object over the state with `{ ...state, ...updates }`; the
fields relevant to the claims are modelled, each optional. -/
structure LoopUpdates where
  currentIteration : Option Nat
  maxIterations : Option Nat
  isActive : Option Bool
  tasksCompleted : Option Nat
  reviewsCompleted : Option Nat
  deriving DecidableEq

/-- `updateLoop(agentName, updates)` (autonomous-workflow.md lines 319-328):
null when the agent has no state; otherwise spread-merge the updates over the
state and save. -/
def updateLoop (states : LoopStates) (agentName : String) (updates : LoopUpdates) :
    Option LoopState × LoopStates :=
  match findRec states agentName with
  | none => (none, states)
  | some state =>
    let updatedState : LoopState :=
      { state with
          currentIteration := updates.currentIteration.getD state.currentIteration
          maxIterations := updates.maxIterations.getD state.maxIterations
          isActive := updates.isActive.getD state.isActive
          tasksCompleted := updates.tasksCompleted.getD state.tasksCompleted
          reviewsCompleted := updates.reviewsCompleted.getD state.reviewsCompleted }
    (some updatedState, setRec states agentName updatedState)

/-- `stopLoop(agentName)` (autonomous-workflow.md lines 330-343). -/
def stopLoop (states : LoopStates) (agentName : String) (now : Nat) :
    Option LoopState × LoopStates :=
  match findRec states agentName with
  | none => (none, states)
  | some state =>
    let stoppedState := { state with isActive := false, stoppedAt := some now }
    (some stoppedState, setRec states agentName stoppedState)

/-- `incrementIteration(agentName)` (autonomous-workflow.md lines 352-373):
null and no store change when the agent has no state or it is inactive;
otherwise bump `currentIteration` and the check stamps, and when the new
count reaches `maxIterations`, flip `isActive` off with a stop reason. -/
def incrementIteration (states : LoopStates) (agentName : String) (now : Nat) :
    Option LoopState × LoopStates :=
  match findRec states agentName with
  | none => (none, states)
  | some state =>
    if state.isActive = false then (none, states)
    else
      let updatedState :=
        { state with
            currentIteration := state.currentIteration + 1
            lastCheckAt := some now
            nextCheckAt := now + state.checkInterval * 1000 }
      let updatedState :=
        if updatedState.currentIteration ≥ state.maxIterations then
          { updatedState with
              isActive := false
              stoppedAt := some now
              stopReason := some "Max iterations reached" }
        else updatedState
      (some updatedState, setRec states agentName updatedState)

/-- Loop stores reachable by the call sequences named in the claim:
`startLoop`, `incrementIteration` (poll), `updateLoop`, `stopLoop`. -/
inductive LoopReach : LoopStates → Prop where
  | init : LoopReach []
  | start (s : LoopStates) (a : String) (o : LoopOptions) (now : Nat) :
      LoopReach s → LoopReach (startLoop s a o now).2
  | incr (s : LoopStates) (a : String) (now : Nat) :
      LoopReach s → LoopReach (incrementIteration s a now).2
  | update (s : LoopStates) (a : String) (u : LoopUpdates) :
      LoopReach s → LoopReach (updateLoop s a u).2
  | stop (s : LoopStates) (a : String) (now : Nat) :
      LoopReach s → LoopReach (stopLoop s a now).2

/-- Loop stores reachable without `updateLoop`. -/
inductive LoopReachCore : LoopStates → Prop where
  | init : LoopReachCore []
  | start (s : LoopStates) (a : String) (o : LoopOptions) (now : Nat) :
      LoopReachCore s → LoopReachCore (startLoop s a o now).2
  | incr (s : LoopStates) (a : String) (now : Nat) :
      LoopReachCore s → LoopReachCore (incrementIteration s a now).2
  | stop (s : LoopStates) (a : String) (now : Nat) :
      LoopReachCore s → LoopReachCore (stopLoop s a now).2

def c5opts : LoopOptions := { mode := none, checkInterval := none, maxIterations := some 2 }

def c5upd : LoopUpdates :=
  { currentIteration := some 5, maxIterations := none, isActive := none,
    tasksCompleted := none, reviewsCompleted := none }

/-- The store after `startLoop("a", {maxIterations: 2})` followed by
`updateLoop("a", {currentIteration: 5})`. -/
def c5bad : LoopStates := (updateLoop (startLoop [] "a" c5opts 0).2 "a" c5upd).2

/-- Claim C5, counterexample.  `c5bad` is reachable by a `startLoop` followed
by an `updateLoop` — calls the claim quantifies over — yet its loop state for
"a" has `currentIteration = 5 > 2 = maxIterations`: `updateLoop` spreads the
caller's object over the state with no validation, so it can push
`currentIteration` past `maxIterations` (and can likewise rewrite `isActive`
or `maxIterations` directly). -/
theorem c5_counterexample :
    LoopReach c5bad ∧
    ((findRec c5bad "a").map (fun st => (st.currentIteration, st.maxIterations))
      = some (5, 2)) ∧
    ((findRec c5bad "a").map
      (fun st => decide (st.currentIteration ≤ st.maxIterations)) = some false) := by
  refine ⟨?_, by decide, by decide⟩
  exact LoopReach.update _ "a" c5upd (LoopReach.start _ "a" c5opts 0 LoopReach.init)

theorem loopReachCore_inv (s : LoopStates) (hs : LoopReachCore s) :
    ∀ a st, findRec s a = some st →
      st.currentIteration ≤ st.maxIterations ∧
      (st.isActive = true → st.currentIteration < st.maxIterations) := by
  induction hs with
  | init =>
    intro a st h
    simp [findRec] at h
  | start s0 a0 o now hr ih =>
    intro a st h
    by_cases hae : a = a0
    · subst hae
      rw [show (startLoop s0 a o now).2
          = setRec s0 a (startLoop s0 a o now).1 from rfl] at h
      rw [findRec_setRec_self] at h
      have hpos : 0 < orDefault o.maxIterations 100 := by
        cases hm : o.maxIterations with
        | none => simp [orDefault]
        | some k =>
          cases k with
          | zero => simp [orDefault]
          | succ m => simp [orDefault]
      injection h with h
      subst h
      exact ⟨by exact Nat.le_of_lt hpos, fun _ => hpos⟩
    · rw [show (startLoop s0 a0 o now).2
          = setRec s0 a0 (startLoop s0 a0 o now).1 from rfl] at h
      rw [findRec_setRec_ne _ _ _ _ hae] at h
      exact ih a st h
  | incr s0 a0 now hr ih =>
    intro a st h
    cases hf : findRec s0 a0 with
    | none =>
      rw [show (incrementIteration s0 a0 now).2 = s0 by
        simp [incrementIteration, hf]] at h
      exact ih a st h
    | some st0 =>
      by_cases hact : st0.isActive = false
      · rw [show (incrementIteration s0 a0 now).2 = s0 by
          simp [incrementIteration, hf, hact]] at h
        exact ih a st h
      · have hactT : st0.isActive = true := by
          cases hb : st0.isActive
          · exact absurd hb hact
          · rfl
        have hlt : st0.currentIteration < st0.maxIterations := (ih a0 st0 hf).2 hactT
        by_cases hmax : st0.currentIteration + 1 ≥ st0.maxIterations
        · have hsnd : (incrementIteration s0 a0 now).2 = setRec s0 a0
              { st0 with
                  currentIteration := st0.currentIteration + 1
                  lastCheckAt := some now
                  nextCheckAt := now + st0.checkInterval * 1000
                  isActive := false
                  stoppedAt := some now
                  stopReason := some "Max iterations reached" } := by
            simp [incrementIteration, hf, hact, hmax]
          rw [hsnd] at h
          by_cases hae : a = a0
          · subst hae
            rw [findRec_setRec_self] at h
            injection h with h
            subst h
            refine ⟨?_, ?_⟩
            · show st0.currentIteration + 1 ≤ st0.maxIterations
              omega
            · intro hcontra
              exact Bool.noConfusion hcontra
          · rw [findRec_setRec_ne _ _ _ _ hae] at h
            exact ih a st h
        · have hsnd : (incrementIteration s0 a0 now).2 = setRec s0 a0
              { st0 with
                  currentIteration := st0.currentIteration + 1
                  lastCheckAt := some now
                  nextCheckAt := now + st0.checkInterval * 1000 } := by
            simp [incrementIteration, hf, hact, hmax]
          rw [hsnd] at h
          by_cases hae : a = a0
          · subst hae
            rw [findRec_setRec_self] at h
            injection h with h
            subst h
            refine ⟨?_, ?_⟩
            · show st0.currentIteration + 1 ≤ st0.maxIterations
              omega
            · intro _
              show st0.currentIteration + 1 < st0.maxIterations
              omega
          · rw [findRec_setRec_ne _ _ _ _ hae] at h
            exact ih a st h
  | stop s0 a0 now hr ih =>
    intro a st h
    cases hf : findRec s0 a0 with
    | none =>
      rw [show (stopLoop s0 a0 now).2 = s0 by simp [stopLoop, hf]] at h
      exact ih a st h
    | some st0 =>
      have hle : st0.currentIteration ≤ st0.maxIterations := (ih a0 st0 hf).1
      have hsnd : (stopLoop s0 a0 now).2
          = setRec s0 a0 { st0 with isActive := false, stoppedAt := some now } := by
        simp [stopLoop, hf]
      rw [hsnd] at h
      by_cases hae : a = a0
      · subst hae
        rw [findRec_setRec_self] at h
        injection h with h
        subst h
        refine ⟨hle, ?_⟩
        intro hcontra
        exact Bool.noConfusion hcontra
      · rw [findRec_setRec_ne _ _ _ _ hae] at h
        exact ih a st h

/-- Claim C5 (amended): for every loop store reachable by `startLoop`,
`incrementIteration` (poll) and `stopLoop` calls — `updateLoop` excluded,
since its unvalidated spread-merge can set `currentIteration`, `isActive` or
`maxIterations` directly (see the counterexample) — every agent's state
satisfies `currentIteration ≤ maxIterations`, and once `currentIteration`
equals `maxIterations` the state is inactive; a further poll on an inactive
state is a no-op returning null and leaving the store unchanged (a new
`startLoop` begins a fresh cycle with `currentIteration = 0`). -/
theorem c5_loop_invariant :
    (∀ s, LoopReachCore s → ∀ a st, findRec s a = some st →
      (st.currentIteration ≤ st.maxIterations ∧
        (st.currentIteration = st.maxIterations → st.isActive = false))) ∧
    (∀ s a now st, findRec s a = some st → st.isActive = false →
      incrementIteration s a now = (none, s)) := by
  constructor
  · intro s hs a st h
    obtain ⟨h1, h2⟩ := loopReachCore_inv s hs a st h
    refine ⟨h1, ?_⟩
    intro heq
    cases hb : st.isActive
    · rfl
    · have := h2 hb
      omega
  · intro s a now st h hin
    simp [incrementIteration, h, hin]

def c5wopts : LoopOptions := { mode := none, checkInterval := none, maxIterations := some 1 }

/-- The store after `startLoop("a", {maxIterations: 1})` and one poll. -/
def c5wstates : LoopStates := (incrementIteration (startLoop [] "a" c5wopts 0).2 "a" 3).2

/-- The state the sequence behind `c5wstates` produces for "a". -/
def c5wstate : LoopState :=
  { agentName := "a"
    mode := "continuous"
    checkInterval := 30
    maxIterations := 1
    currentIteration := 1
    isActive := false
    startedAt := some 0
    lastCheckAt := some 3
    nextCheckAt := 30003
    tasksCompleted := 0
    reviewsCompleted := 0
    stoppedAt := some 3
    stopReason := some "Max iterations reached" }

/-- Witness for `c5_loop_invariant`: after one poll on a one-iteration loop,
the invariant instantiates to `1 ≤ 1` and the state being inactive, and a
further poll is a no-op. -/
theorem c5_loop_invariant_witness :
    (c5wstate.currentIteration ≤ c5wstate.maxIterations ∧ c5wstate.isActive = false) ∧
    incrementIteration c5wstates "a" 4 = (none, c5wstates) := by
  have hreach : LoopReachCore c5wstates :=
    LoopReachCore.incr _ "a" 3 (LoopReachCore.start _ "a" c5wopts 0 LoopReachCore.init)
  have hfind : findRec c5wstates "a" = some c5wstate := by decide
  have h := (c5_loop_invariant).1 c5wstates hreach "a" c5wstate hfind
  refine ⟨⟨h.1, h.2 (by decide)⟩, ?_⟩
  exact (c5_loop_invariant).2 c5wstates "a" 4 c5wstate hfind (by decide)

/-! ## Persisted-store loading -/

/-- What a loader can find on disk: no file (`readFile` throws ENOENT), a file
whose contents `JSON.parse` rejects, or a file that parses to a store. -/
inductive RawRecord (α : Type u) where
  | absent
  | corrupt
  | parsed (value : α)

/-- `loadTasks` (taskQueue.js:29-36): the single `catch` handles both the
absent-file and the parse-failure throw and returns `{}` for either. -/
def loadTasks : RawRecord Store → Store
  | RawRecord.absent => []
  | RawRecord.corrupt => []
  | RawRecord.parsed s => s

/-- `loadMissions` (missionManager.js:28-35): identical catch-all shape. -/
def loadMissions : RawRecord Missions → Missions
  | RawRecord.absent => []
  | RawRecord.corrupt => []
  | RawRecord.parsed s => s

/-- `loadPlans` (projectPlanManager lines 28-35): identical catch-all shape. -/
def loadPlans : RawRecord Plans → Plans
  | RawRecord.absent => []
  | RawRecord.corrupt => []
  | RawRecord.parsed s => s

/-- Claim C8 concerns a requirement the loaders do not meet: every loader maps
a present-but-unparseable record to the empty store, the very same result as
an absent record, and no operation fails — each caller proceeds on `{}`.
This theorem evaluates the three loaders at the corrupt input. -/
theorem c8_corrupt_treated_as_empty :
    (loadTasks RawRecord.corrupt = ([] : Store)) ∧
    (loadTasks RawRecord.corrupt = loadTasks RawRecord.absent) ∧
    (loadMissions RawRecord.corrupt = ([] : Missions)) ∧
    (loadMissions RawRecord.corrupt = loadMissions RawRecord.absent) ∧
    (loadPlans RawRecord.corrupt = ([] : Plans)) ∧
    (loadPlans RawRecord.corrupt = loadPlans RawRecord.absent) :=
  ⟨rfl, rfl, rfl, rfl, rfl, rfl⟩

end AiCollab
